import Mathlib

/-!
# Season heatmap aggregation: a shallow embedding

This file embeds the aggregation core of `src/tools/create_season_heatmap.py`:
the per-event normalisation of classification rows, the accumulation of
standings across a season schedule, the pandas pivot/fill/sort/total pipeline
and the scale-bound computation, and proves the specified properties about it.

Modelling decisions, each mirroring the Python/pandas semantics:
* A session classification is `Option (List DriverRow)`: `none` models both a
  failed `Session.load` (the `try`/`except` path) and `results is None`;
  `some []` models an empty classification frame.  Points are `ℚ` (the source
  works with non-negative float points; exact rationals stand in for them).
* `fastf1` session loading is data already in the `EventRec`, so the pipeline
  is a pure function of the event-record list, as in the spec's data model.
* `DataFrame.pivot(index, columns, values)` sorts both the row index and the
  column index ascending (pandas builds the pivot index from sorted
  categoricals) and raises `ValueError: Index contains duplicate entries,
  cannot reshape` when an (index, columns) pair occurs twice; `.fillna`
  supplies the defaults (`0` for points, the `"N/A"` marker for positions).
* `sort_values(by="total_points", ascending=True)` uses numpy's default
  quicksort, which is not stable, so the source fixes no tie order among
  equal totals.  To stay executable the model picks one concrete ascending
  reordering (an insertion sort of the pivoted row index); the theorems
  about the row order assert only what every ascending `sort_values`
  output satisfies — sortedness by totals and being a permutation of the
  pivoted index.  On the concrete two-driver inputs evaluated below,
  numpy's small-array insertion sort produces this same order, so the
  evaluated tables match the source.
* Python `str.replace("Grand Prix", "")` and `str.strip()` are implemented
  character-by-character with the same left-to-right non-overlapping
  replacement and both-ends whitespace stripping.
-/

unseal Rat.add Rat.sub Rat.mul Rat.inv Rat.ofScientific

namespace SeasonHeatmap

/-- One row of a session classification: `Abbreviation`, `Points`,
`Position` as read by the source from `session.results`. -/
structure DriverRow where
  abbreviation : String
  points : ℚ
  position : ℕ
deriving DecidableEq, Repr

/-- One schedule row plus the (already fetched) session outcomes the loop
body consumes: `EventName`, `RoundNumber`, `EventFormat`, and the main-race
and sprint classifications (`none` = load failed or `results is None`). -/
structure EventRec where
  eventName : String
  roundNumber : ℕ
  eventFormat : String
  raceResults : Option (List DriverRow)
  sprintResults : Option (List DriverRow)
deriving DecidableEq, Repr

/-- One element of the `standings` list built by the schedule loop. -/
structure Standing where
  eventName : String
  roundNumber : ℕ
  driver : String
  points : ℚ
  position : ℕ
deriving DecidableEq, Repr

/-- A cell of the pivoted position table: a classified position, or the
`"N/A"` marker `fillna` puts at (driver, round) pairs with no observation. -/
inductive PosEntry where
  | pos (p : ℕ)
  | notAvailable
deriving DecidableEq, Repr

/-- Python dict assignment `d[k] = v`: overwrite the value when the key is
present, append the pair otherwise. -/
def dictSet (d : List (String × ℚ)) (k : String) (v : ℚ) : List (String × ℚ) :=
  if ∃ p ∈ d, p.1 = k then
    d.map (fun p => if p.1 = k then (k, v) else p)
  else d ++ [(k, v)]

/-- Python `d.get(k, dflt)`. -/
def dictGet (d : List (String × ℚ)) (k : String) (dflt : ℚ) : ℚ :=
  match d.find? (fun p => p.1 == k) with
  | some p => p.2
  | none => dflt

/-- The single fold step building the sprint dict. -/
def sprintStep (d : List (String × ℚ)) (r : DriverRow) : List (String × ℚ) :=
  dictSet d r.abbreviation r.points

/-- The `sprint_points_dict` built for one event: filled only when the event
format is `"sprint_qualifying"` and the sprint session loaded with a
classification; a failed load (`none`) and an empty classification both leave
the dict empty (folding the assignment over the rows). -/
def sprintDict (e : EventRec) : List (String × ℚ) :=
  if e.eventFormat = "sprint_qualifying" then
    match e.sprintResults with
    | some rows => rows.foldl (fun d r => dictSet d r.abbreviation r.points) []
    | none => []
  else []

/-- The loop's skip test, positively: the main race loaded and its
classification is non-empty. -/
def mainNonempty (e : EventRec) : Bool :=
  match e.raceResults with
  | some rows => !rows.isEmpty
  | none => false

/-- The standings rows one event appends: nothing when the event is skipped,
otherwise one row per main-classification row, with sprint points (defaulting
to 0) added onto the race points. -/
def eventStandings (e : EventRec) : List Standing :=
  match e.raceResults with
  | some rows =>
    if rows.isEmpty then [] else
      rows.map (fun r =>
        { eventName := e.eventName
          roundNumber := e.roundNumber
          driver := r.abbreviation
          points := r.points + dictGet (sprintDict e) r.abbreviation 0
          position := r.position })
  | none => []

/-- The full `standings` list accumulated over the schedule, in schedule
iteration order. -/
def standings (es : List EventRec) : List Standing :=
  match es with
  | [] => []
  | e :: rest => eventStandings e ++ standings rest

/-- The events that pass the skip test, in schedule order. -/
def includedEvents (es : List EventRec) : List EventRec :=
  es.filter (fun e => mainNonempty e)

/-- Python `s.replace("Grand Prix", "")` on the character list: left-to-right
non-overlapping removal of every occurrence. -/
def stripGP : List Char → List Char
  | 'G' :: 'r' :: 'a' :: 'n' :: 'd' :: ' ' :: 'P' :: 'r' :: 'i' :: 'x' :: rest => stripGP rest
  | c :: rest => c :: stripGP rest
  | [] => []

/-- The ASCII whitespace characters Python `str.strip()` removes. -/
def isStripChar (c : Char) : Bool :=
  c == ' ' || c == '\t' || c == '\n' || c == '\r' || c == '\x0b' || c == '\x0c'

/-- Python `str.strip()`: drop whitespace from both ends. -/
def trimEnds (l : List Char) : List Char :=
  ((l.dropWhile isStripChar).reverse.dropWhile isStripChar).reverse

/-- `event_name.replace("Grand Prix", "").strip()`. -/
def shortName (s : String) : String :=
  String.mk (trimEnds (stripGP s.data))

/-- The `short_event_names` list: one shortened name per included event, in
schedule iteration order. -/
def shortEventNames (es : List EventRec) : List String :=
  (includedEvents es).map (fun e => shortName e.eventName)

/-- First-occurrence deduplication (the distinct values of a data-frame
column, in order of first appearance), with an accumulator of seen values. -/
def uniqAux {α : Type} [DecidableEq α] (seen : List α) : List α → List α
  | [] => []
  | x :: xs => if x ∈ seen then uniqAux seen xs else x :: uniqAux (x :: seen) xs

/-- First-occurrence deduplication of a list. -/
def uniq {α : Type} [DecidableEq α] (l : List α) : List α :=
  uniqAux [] l

/-- Python string comparison: lexicographic by code point, i.e. the order of
the underlying character lists. -/
def strLe (a b : String) : Prop :=
  a.data ≤ b.data

instance : DecidableRel strLe := fun a b =>
  inferInstanceAs (Decidable (a.data ≤ b.data))

instance : IsTotal String strLe := ⟨fun a b => le_total a.data b.data⟩

instance : IsTrans String strLe := ⟨fun _ _ _ h₁ h₂ => le_trans h₁ h₂⟩

/-- The pivot's row index: the distinct `Driver` values sorted ascending
(lexicographically, as Python compares strings), as pandas sorts the pivot
index. -/
def pivotIndex (st : List Standing) : List String :=
  List.insertionSort strLe (uniq (st.map (fun s => s.driver)))

/-- The pivot's column index: the distinct `RoundNumber` values sorted
ascending. -/
def pivotCols (st : List Standing) : List ℕ :=
  List.insertionSort (· ≤ ·) (uniq (st.map (fun s => s.roundNumber)))

/-- The (Driver, RoundNumber) key of each standings row; pandas `pivot`
demands these be pairwise distinct. -/
def pivotKeys (st : List Standing) : List (String × ℕ) :=
  st.map (fun s => (s.driver, s.roundNumber))

/-- One cell of the pivoted, zero-filled points table. -/
def pointsAt (st : List Standing) (d : String) (r : ℕ) : ℚ :=
  match st.find? (fun s => s.driver == d && s.roundNumber == r) with
  | some s => s.points
  | none => 0

/-- One cell of the pivoted position table, `"N/A"`-filled. -/
def positionAt (st : List Standing) (d : String) (r : ℕ) : PosEntry :=
  match st.find? (fun s => s.driver == d && s.roundNumber == r) with
  | some s => PosEntry.pos s.position
  | none => PosEntry.notAvailable

/-- `heatmap_data.sum(axis=1)` for one driver: the sum of the zero-filled
row over the pivot columns. -/
def totalOf (st : List Standing) (cols : List ℕ) (d : String) : ℚ :=
  (cols.map (fun r => pointsAt st d r)).sum

/-- `sort_values(by="total_points", ascending=True)` applied to the pivoted
row index: one concrete ascending reordering by total points.  numpy's
default quicksort is unstable, so of this list only its sort-invariant
properties (sortedness by totals, membership, length) reflect guarantees
of the source; no tie order is guaranteed. -/
def sortedRows (st : List Standing) : List String :=
  List.insertionSort
    (fun a b => totalOf st (pivotCols st) a ≤ totalOf st (pivotCols st) b)
    (pivotIndex st)

/-- The dense points grid in a given row and column order. -/
def gridOf (st : List Standing) (rows : List String) (cols : List ℕ) : List (List ℚ) :=
  rows.map (fun d => cols.map (fun r => pointsAt st d r))

/-- The parallel position grid. -/
def posGridOf (st : List Standing) (rows : List String) (cols : List ℕ) :
    List (List PosEntry) :=
  rows.map (fun d => cols.map (fun r => positionAt st d r))

/-- `numpy` max of the listed values (the grids are non-empty wherever the
source takes a max, so the empty-list default is never exercised). -/
def obsMax (l : List ℚ) : ℚ :=
  match l.max? with
  | some v => v
  | none => 0

/-- `m if m > 0 else 1`: the scale upper bound passed to the colour map. -/
def scaleBound (l : List ℚ) : ℚ :=
  if 0 < obsMax l then obsMax l else 1

/-- The finalized aggregate handed to the figure: row order, column rounds,
column labels, both grids, totals, and the two scale bounds. -/
structure SeasonTable where
  rows : List String
  columns : List ℕ
  colLabels : List String
  points : List (List ℚ)
  positions : List (List PosEntry)
  totals : List ℚ
  maxPoints : ℚ
  maxTotalPoints : ℚ
deriving DecidableEq, Repr

instance {ε α : Type} [DecidableEq ε] [DecidableEq α] : DecidableEq (Except ε α) := fun a b =>
  match a, b with
  | .error x, .error y =>
    if h : x = y then .isTrue (by rw [h]) else .isFalse (by simp [h])
  | .error _, .ok _ => .isFalse (by simp)
  | .ok _, .error _ => .isFalse (by simp)
  | .ok x, .ok y =>
    if h : x = y then .isTrue (by rw [h]) else .isFalse (by simp [h])

/-- The `ValueError` message raised when no event yields standings. -/
def noDataMsg (year : ℤ) : String :=
  "No race data available for " ++ toString year ++ " season yet"

/-- The `ValueError` pandas raises from `pivot` on a duplicated
(index, columns) pair. -/
def reshapeErrMsg : String :=
  "Index contains duplicate entries, cannot reshape"

/-- The aggregation pipeline of `create_season_heatmap`: accumulate
standings over the schedule, fail when empty, pivot (failing on duplicate
(driver, round) keys), zero-fill, total, sort, and package the grid data the
figure consumes. -/
def create_season_heatmap (year : ℤ) (es : List EventRec) :
    Except String SeasonTable :=
  let st := standings es
  if st.isEmpty then
    Except.error (noDataMsg year)
  else if (pivotKeys st).Nodup then
    let cols := pivotCols st
    let rows := sortedRows st
    Except.ok
      { rows := rows
        columns := cols
        colLabels := shortEventNames es
        points := gridOf st rows cols
        positions := posGridOf st rows cols
        totals := rows.map (fun d => totalOf st cols d)
        maxPoints := scaleBound (gridOf st rows cols).flatten
        maxTotalPoints := scaleBound (rows.map (fun d => totalOf st cols d)) }
  else
    Except.error reshapeErrMsg

/-! ## Concrete seasons used as witnesses and counterexamples

`exEvent1`/`exEvent2` mirror the spec's worked scenario: a conventional
event with two classified drivers, then a sprint-format event where only
driver `AAA` is classified and the sprint adds 8 points. -/

def exRowA : DriverRow := ⟨"AAA", 25, 1⟩

def exRowB : DriverRow := ⟨"BBB", 18, 2⟩

def exEvent1 : EventRec :=
  ⟨"Alpha Grand Prix", 1, "conventional", some [exRowA, exRowB], none⟩

def exEvent2 : EventRec :=
  ⟨"Beta Grand Prix", 2, "sprint_qualifying", some [⟨"AAA", 18, 2⟩], some [⟨"AAA", 8, 1⟩]⟩

/-- The table the pipeline produces on the two-event example season. -/
def exTable : SeasonTable :=
  { rows := ["BBB", "AAA"], columns := [1, 2], colLabels := ["Alpha", "Beta"]
    points := [[18, 0], [25, 26]]
    positions := [[.pos 2, .notAvailable], [.pos 1, .pos 2]]
    totals := [18, 51], maxPoints := 26, maxTotalPoints := 51 }

/-- The order in which driver codes are first observed across the season's
standings (first occurrence first). -/
def firstObservedOrder (es : List EventRec) : List String :=
  uniq ((standings es).map (fun s => s.driver))

/-- A season whose only event lists the same driver twice: two observations
share the (driver, round) pivot key. -/
def dupEvent : EventRec :=
  ⟨"Gamma Grand Prix", 1, "conventional", some [⟨"VER", 25, 1⟩, ⟨"VER", 18, 2⟩], none⟩

/-- One event whose two drivers tie on points, listed `BBB` before `AAA`. -/
def tieEvent : EventRec :=
  ⟨"Gamma Grand Prix", 1, "conventional", some [⟨"BBB", 10, 1⟩, ⟨"AAA", 10, 2⟩], none⟩

/-- The table the pipeline produces on the tie season. -/
def tieTable : SeasonTable :=
  { rows := ["AAA", "BBB"], columns := [1], colLabels := ["Gamma"]
    points := [[10], [10]], positions := [[.pos 2], [.pos 1]]
    totals := [10, 10], maxPoints := 10, maxTotalPoints := 10 }

/-- A schedule listed out of round order: round 2 first, round 1 second. -/
def lateEvent : EventRec :=
  ⟨"Beta Grand Prix", 2, "conventional", some [⟨"AAA", 25, 1⟩], none⟩

def earlyEvent : EventRec :=
  ⟨"Alpha Grand Prix", 1, "conventional", some [⟨"BBB", 25, 1⟩], none⟩

/-- The table the pipeline produces on the out-of-order schedule
`[lateEvent, earlyEvent]`: columns are in round order but the labels stay
in schedule iteration order. -/
def misTable : SeasonTable :=
  { rows := ["AAA", "BBB"], columns := [1, 2], colLabels := ["Beta", "Alpha"]
    points := [[0, 25], [25, 0]]
    positions := [[.notAvailable, .pos 1], [.pos 1, .notAvailable]]
    totals := [25, 25], maxPoints := 25, maxTotalPoints := 25 }

/-! ## Basic facts about the accumulation loop -/

lemma eventStandings_eq_map {e : EventRec} {rows : List DriverRow}
    (hr : e.raceResults = some rows) (hne : rows ≠ []) :
    eventStandings e = rows.map (fun r =>
      { eventName := e.eventName
        roundNumber := e.roundNumber
        driver := r.abbreviation
        points := r.points + dictGet (sprintDict e) r.abbreviation 0
        position := r.position }) := by
  unfold eventStandings
  rw [hr]
  have hb : rows.isEmpty = false := by
    cases rows with
    | nil => exact absurd rfl hne
    | cons a l => rfl
  simp [hb]

lemma eventStandings_eq_nil_iff {e : EventRec} :
    eventStandings e = [] ↔ mainNonempty e = false := by
  unfold eventStandings mainNonempty
  cases h : e.raceResults with
  | none => simp
  | some rows =>
    cases hb : rows.isEmpty with
    | true => simp [hb]
    | false =>
      have hne : rows ≠ [] := by
        intro hnil
        rw [hnil] at hb
        exact absurd hb (by simp)
      simp [hb, hne]

lemma round_of_mem_eventStandings {e : EventRec} {s : Standing}
    (h : s ∈ eventStandings e) : s.roundNumber = e.roundNumber := by
  unfold eventStandings at h
  cases hr : e.raceResults with
  | none => rw [hr] at h; simp at h
  | some rows =>
    rw [hr] at h
    by_cases hne : rows.isEmpty <;> simp [hne] at h
    obtain ⟨r, -, rfl⟩ := h
    rfl

lemma mem_standings {es : List EventRec} {s : Standing} :
    s ∈ standings es ↔ ∃ e ∈ es, s ∈ eventStandings e := by
  induction es with
  | nil => simp [standings]
  | cons e rest ih => simp [standings, ih]

lemma standings_eq_nil_iff {es : List EventRec} :
    standings es = [] ↔ ∀ e ∈ es, mainNonempty e = false := by
  induction es with
  | nil => simp [standings]
  | cons e rest ih =>
    simp [standings, ih, eventStandings_eq_nil_iff]

lemma mem_uniqAux {α : Type} [DecidableEq α] {l : List α} {a : α} :
    ∀ {seen : List α}, a ∈ uniqAux seen l ↔ a ∈ l ∧ a ∉ seen := by
  induction l with
  | nil => simp [uniqAux]
  | cons x xs ih =>
    intro seen
    by_cases hx : x ∈ seen
    · rw [uniqAux, if_pos hx, ih]
      constructor
      · rintro ⟨ha, hns⟩
        exact ⟨List.mem_cons_of_mem _ ha, hns⟩
      · rintro ⟨ha, hns⟩
        rcases List.mem_cons.mp ha with rfl | ha
        · exact absurd hx hns
        · exact ⟨ha, hns⟩
    · rw [uniqAux, if_neg hx]
      constructor
      · intro ha
        rcases List.mem_cons.mp ha with rfl | ha
        · exact ⟨List.mem_cons_self _ _, hx⟩
        · obtain ⟨h₁, h₂⟩ := ih.mp ha
          refine ⟨List.mem_cons_of_mem _ h₁, fun hs => h₂ (List.mem_cons_of_mem _ hs)⟩
      · rintro ⟨ha, hns⟩
        by_cases hax : a = x
        · exact hax ▸ List.mem_cons_self _ _
        · rcases List.mem_cons.mp ha with rfl | ha
          · exact absurd rfl hax
          · refine List.mem_cons_of_mem _ (ih.mpr ⟨ha, fun hs => ?_⟩)
            rcases List.mem_cons.mp hs with rfl | hs
            · exact hax rfl
            · exact hns hs

lemma mem_uniq {α : Type} [DecidableEq α] {l : List α} {a : α} :
    a ∈ uniq l ↔ a ∈ l := by
  simp [uniq, mem_uniqAux]

lemma mem_pivotCols {st : List Standing} {r : ℕ} :
    r ∈ pivotCols st ↔ ∃ s ∈ st, s.roundNumber = r := by
  unfold pivotCols
  rw [List.mem_insertionSort, mem_uniq]
  simp [eq_comm]

lemma mem_pivotIndex {st : List Standing} {d : String} :
    d ∈ pivotIndex st ↔ ∃ s ∈ st, s.driver = d := by
  unfold pivotIndex
  rw [List.mem_insertionSort, mem_uniq]
  simp [eq_comm]

lemma mem_sortedRows {st : List Standing} {d : String} :
    d ∈ sortedRows st ↔ ∃ s ∈ st, s.driver = d := by
  unfold sortedRows
  rw [List.mem_insertionSort, mem_pivotIndex]

lemma eventStandings_ne_nil_of_mainNonempty {e : EventRec}
    (h : mainNonempty e = true) : eventStandings e ≠ [] := by
  intro hnil
  rw [eventStandings_eq_nil_iff.mp hnil] at h
  cases h

lemma round_mem_standings_iff {es : List EventRec} {r : ℕ} :
    (∃ s ∈ standings es, s.roundNumber = r) ↔
      ∃ e ∈ es, mainNonempty e = true ∧ e.roundNumber = r := by
  constructor
  · rintro ⟨s, hs, rfl⟩
    obtain ⟨e, he, hse⟩ := mem_standings.mp hs
    have hmain : mainNonempty e = true := by
      cases hm : mainNonempty e with
      | true => rfl
      | false => exact absurd (List.ne_nil_of_mem hse) (by simp [eventStandings_eq_nil_iff, hm])
    exact ⟨e, he, hmain, (round_of_mem_eventStandings hse).symm⟩
  · rintro ⟨e, he, hm, rfl⟩
    obtain ⟨s, hs⟩ := List.exists_mem_of_ne_nil _ (eventStandings_ne_nil_of_mainNonempty hm)
    exact ⟨s, mem_standings.mpr ⟨e, he, hs⟩, round_of_mem_eventStandings hs⟩

/-! ## Unpacking a successful pipeline run -/

lemma create_ok_cases {year : ℤ} {es : List EventRec} {t : SeasonTable}
    (h : create_season_heatmap year es = Except.ok t) :
    (standings es).isEmpty = false ∧ (pivotKeys (standings es)).Nodup ∧
    t = { rows := sortedRows (standings es)
          columns := pivotCols (standings es)
          colLabels := shortEventNames es
          points := gridOf (standings es) (sortedRows (standings es)) (pivotCols (standings es))
          positions := posGridOf (standings es) (sortedRows (standings es))
            (pivotCols (standings es))
          totals := (sortedRows (standings es)).map
            (fun d => totalOf (standings es) (pivotCols (standings es)) d)
          maxPoints := scaleBound (gridOf (standings es) (sortedRows (standings es))
            (pivotCols (standings es))).flatten
          maxTotalPoints := scaleBound ((sortedRows (standings es)).map
            (fun d => totalOf (standings es) (pivotCols (standings es)) d)) } := by
  unfold create_season_heatmap at h
  by_cases hE : (standings es).isEmpty <;> simp [hE] at h
  by_cases hN : (pivotKeys (standings es)).Nodup <;> simp [hN] at h
  refine ⟨by revert hE; cases (standings es).isEmpty <;> simp, hN, ?_⟩
  exact h.symm

lemma create_ok_of {year : ℤ} {es : List EventRec}
    (hne : standings es ≠ []) (hnd : (pivotKeys (standings es)).Nodup) :
    ∃ t, create_season_heatmap year es = Except.ok t := by
  unfold create_season_heatmap
  have hE : (standings es).isEmpty = false := by
    cases h : standings es with
    | nil => exact absurd h hne
    | cons a l => rfl
  simp [hE, hnd]

lemma find?_key_eq {st : List Standing} {s : Standing}
    (hnd : (pivotKeys st).Nodup) (hs : s ∈ st) :
    st.find? (fun x => x.driver == s.driver && x.roundNumber == s.roundNumber) = some s := by
  induction st with
  | nil => simp at hs
  | cons x rest ih =>
    have hnd' : ((x.driver, x.roundNumber) ∉ pivotKeys rest) ∧ (pivotKeys rest).Nodup := by
      simpa [pivotKeys] using hnd
    by_cases hx : x.driver = s.driver ∧ x.roundNumber = s.roundNumber
    · have hsx : s = x := by
        rcases List.mem_cons.mp hs with rfl | hsr
        · rfl
        · exfalso
          refine hnd'.1 ?_
          have : (s.driver, s.roundNumber) ∈ pivotKeys rest :=
            List.mem_map_of_mem _ hsr
          rwa [← hx.1, ← hx.2] at this
      subst hsx
      rw [List.find?_cons_of_pos]
      simp
    · have hpx : (x.driver == s.driver && x.roundNumber == s.roundNumber) = false := by
        rcases not_and_or.mp hx with hd | hr
        · simp [hd]
        · simp [hr]
      rw [List.find?_cons_of_neg _ (by simp [hpx])]
      have hsr : s ∈ rest := by
        rcases List.mem_cons.mp hs with rfl | hsr
        · exact absurd ⟨rfl, rfl⟩ hx
        · exact hsr
      exact ih hnd'.2 hsr

lemma cells_of_mem {st : List Standing} {s : Standing}
    (hnd : (pivotKeys st).Nodup) (hs : s ∈ st) :
    pointsAt st s.driver s.roundNumber = s.points ∧
      positionAt st s.driver s.roundNumber = PosEntry.pos s.position := by
  unfold pointsAt positionAt
  rw [find?_key_eq hnd hs]
  exact ⟨rfl, rfl⟩

/-! ## Claim theorems -/

/-- Claim C1: a successful aggregation's column set is exactly the set of
round numbers of events whose main classification loaded non-empty; an
event with an absent, failed or empty main classification contributes no
column. -/
theorem column_set_exact {year : ℤ} {es : List EventRec} {t : SeasonTable}
    (h : create_season_heatmap year es = Except.ok t) :
    ∀ r, r ∈ t.columns ↔ ∃ e ∈ es, mainNonempty e = true ∧ e.roundNumber = r := by
  obtain ⟨-, -, rfl⟩ := create_ok_cases h
  intro r
  show r ∈ pivotCols (standings es) ↔ _
  rw [mem_pivotCols]
  exact round_mem_standings_iff

/-- Witness for C1: on the concrete two-event season, round 2 is a column
(its event is included) and round 3 is not (no such event). -/
theorem column_set_exact_witness :
    (2 ∈ exTable.columns ↔
      ∃ e ∈ [exEvent1, exEvent2], mainNonempty e = true ∧ e.roundNumber = 2) ∧
    (3 ∈ exTable.columns ↔
      ∃ e ∈ [exEvent1, exEvent2], mainNonempty e = true ∧ e.roundNumber = 3) :=
  ⟨@column_set_exact 2024 [exEvent1, exEvent2] exTable (by decide) 2,
   @column_set_exact 2024 [exEvent1, exEvent2] exTable (by decide) 3⟩

lemma noDataMsg_ne_reshape (year : ℤ) : noDataMsg year ≠ reshapeErrMsg := by
  intro h
  have h2 := congrArg (fun s => s.data.head?) h
  simp only at h2
  have hn : (noDataMsg year).data.head? = some 'N' := rfl
  have hi : reshapeErrMsg.data.head? = some 'I' := rfl
  rw [hn, hi] at h2
  simp at h2

/-- Claim C6 (amended): the aggregation fails with the no-data error, whose
message carries the season year, exactly when zero events produced any
observation; with at least one observation it succeeds provided no
(driver, round) pivot key is duplicated (a duplicate fails with the pandas
reshape error instead — see the counterexample). -/
theorem no_data_error_iff (year : ℤ) (es : List EventRec) :
    (create_season_heatmap year es = Except.error (noDataMsg year) ↔ standings es = []) ∧
    (∃ pre post, noDataMsg year = pre ++ toString year ++ post) ∧
    (standings es ≠ [] → (pivotKeys (standings es)).Nodup →
      ∃ t, create_season_heatmap year es = Except.ok t) := by
  refine ⟨?_, ⟨"No race data available for ", " season yet", rfl⟩,
    fun hne hnd => create_ok_of hne hnd⟩
  constructor
  · intro h
    by_contra hne
    have hE : (standings es).isEmpty = false := by
      cases hc : standings es with
      | nil => exact absurd hc hne
      | cons a l => rfl
    unfold create_season_heatmap at h
    simp only [hE] at h
    by_cases hnd : (pivotKeys (standings es)).Nodup <;> simp [hnd] at h
    exact noDataMsg_ne_reshape year h.symm
  · intro h
    unfold create_season_heatmap
    simp [h, standings]

/-- Counterexample to C6 as stated: a season with two observations (the
same driver listed twice in one event) does not make the aggregation
succeed — it fails, and with the reshape error, not the no-data error. -/
theorem no_data_error_iff_counterexample :
    standings [dupEvent] ≠ [] ∧
    create_season_heatmap 2024 [dupEvent] = Except.error reshapeErrMsg ∧
    reshapeErrMsg ≠ noDataMsg 2024 := by
  refine ⟨by decide, by decide, fun h => noDataMsg_ne_reshape 2024 h.symm⟩

/-- Claim C10: the pivot step demands at most one observation per
(driver, round) key — duplicate keys make the aggregation fail with the
reshape error instead of merging or overwriting, and unique keys make the
pivot succeed with each observation's points and position stored at its own
cell. -/
theorem pivot_unique_keys (year : ℤ) (es : List EventRec) :
    (¬ (pivotKeys (standings es)).Nodup →
       create_season_heatmap year es = Except.error reshapeErrMsg) ∧
    ((pivotKeys (standings es)).Nodup → standings es ≠ [] →
       ∃ t, create_season_heatmap year es = Except.ok t) ∧
    ((pivotKeys (standings es)).Nodup → ∀ s ∈ standings es,
       pointsAt (standings es) s.driver s.roundNumber = s.points ∧
       positionAt (standings es) s.driver s.roundNumber = PosEntry.pos s.position) := by
  refine ⟨fun hnd => ?_, fun hnd hne => create_ok_of hne hnd,
    fun hnd s hs => cells_of_mem hnd hs⟩
  have hne : standings es ≠ [] := by
    intro hnil
    exact hnd (by simp [hnil, pivotKeys])
  unfold create_season_heatmap
  have hE : (standings es).isEmpty = false := by
    cases h : standings es with
    | nil => exact absurd h hne
    | cons a l => rfl
  simp [hE, hnd]

/-- Claim C2: in every finalized table the totals vector is exactly the
row-wise sum of the zero-filled points grid, aligned one-to-one with the
row order. -/
theorem totals_are_row_sums {year : ℤ} {es : List EventRec} {t : SeasonTable}
    (h : create_season_heatmap year es = Except.ok t) :
    t.totals = t.points.map List.sum := by
  obtain ⟨-, -, rfl⟩ := create_ok_cases h
  simp [gridOf, totalOf, List.map_map]

/-! ## The sprint dict: Python dict semantics -/

lemma dictGet_nil (k : String) (dflt : ℚ) : dictGet [] k dflt = dflt := rfl

lemma dictGet_cons (p : String × ℚ) (d : List (String × ℚ)) (k : String) (dflt : ℚ) :
    dictGet (p :: d) k dflt = if p.1 = k then p.2 else dictGet d k dflt := by
  unfold dictGet
  by_cases hp : p.1 = k
  · rw [List.find?_cons_of_pos _ (by simp [hp]), if_pos hp]
  · rw [List.find?_cons_of_neg _ (by simp [hp]), if_neg hp]

lemma dictGet_not_found (d : List (String × ℚ)) (k : String) (dflt : ℚ)
    (h : ∀ p ∈ d, p.1 ≠ k) : dictGet d k dflt = dflt := by
  induction d with
  | nil => rfl
  | cons p rest ih =>
    rw [dictGet_cons, if_neg (h p (List.mem_cons_self _ _))]
    exact ih (fun q hq => h q (List.mem_cons_of_mem _ hq))

lemma dictGet_append (d₁ d₂ : List (String × ℚ)) (k : String) (dflt : ℚ) :
    dictGet (d₁ ++ d₂) k dflt = dictGet d₁ k (dictGet d₂ k dflt) := by
  induction d₁ with
  | nil => rfl
  | cons p rest ih =>
    by_cases hp : p.1 = k <;> simp [dictGet_cons, hp, ih]

lemma dictGet_map_replace (d : List (String × ℚ)) (k k' : String) (v dflt : ℚ) :
    dictGet (d.map (fun p => if p.1 = k' then (k', v) else p)) k dflt =
      if k' = k then (if ∃ p ∈ d, p.1 = k' then v else dflt)
      else dictGet d k dflt := by
  induction d with
  | nil =>
    by_cases hk : k' = k <;> simp [dictGet_nil, hk]
  | cons p rest ih =>
    rw [List.map_cons]
    by_cases hpk : p.1 = k'
    · rw [if_pos hpk, dictGet_cons]
      by_cases hk : k' = k
      · rw [if_pos hk, if_pos hk, if_pos ⟨p, List.mem_cons_self _ _, hpk⟩]
      · rw [if_neg hk, if_neg hk, ih, if_neg hk, dictGet_cons,
          if_neg (fun h => hk (hpk ▸ h))]
    · rw [if_neg hpk, dictGet_cons]
      by_cases hpkk : p.1 = k
      · have hk : k' ≠ k := fun h => hpk (h ▸ hpkk)
        rw [if_pos hpkk, if_neg hk, dictGet_cons, if_pos hpkk]
      · rw [if_neg hpkk, ih]
        by_cases hk : k' = k
        · rw [if_pos hk, if_pos hk]
          have : (∃ q ∈ p :: rest, q.1 = k') ↔ ∃ q ∈ rest, q.1 = k' := by
            constructor
            · rintro ⟨q, hq, hqk⟩
              rcases List.mem_cons.mp hq with rfl | hq'
              · exact absurd hqk hpk
              · exact ⟨q, hq', hqk⟩
            · rintro ⟨q, hq, hqk⟩
              exact ⟨q, List.mem_cons_of_mem _ hq, hqk⟩
          by_cases hex : ∃ q ∈ rest, q.1 = k'
          · rw [if_pos hex, if_pos (this.mpr hex)]
          · rw [if_neg hex, if_neg (fun h => hex (this.mp h))]
        · rw [if_neg hk, if_neg hk, dictGet_cons, if_neg hpkk]

lemma dictGet_dictSet_self (d : List (String × ℚ)) (k : String) (v dflt : ℚ) :
    dictGet (dictSet d k v) k dflt = v := by
  unfold dictSet
  by_cases hmem : ∃ p ∈ d, p.1 = k
  · rw [if_pos hmem, dictGet_map_replace, if_pos rfl, if_pos hmem]
  · rw [if_neg hmem, dictGet_append, dictGet_cons, if_pos rfl]
    exact dictGet_not_found d k v (fun p hp hpk => hmem ⟨p, hp, hpk⟩)

lemma dictGet_dictSet_ne (d : List (String × ℚ)) {k k' : String} (v dflt : ℚ)
    (hkk : k' ≠ k) : dictGet (dictSet d k' v) k dflt = dictGet d k dflt := by
  unfold dictSet
  by_cases hmem : ∃ p ∈ d, p.1 = k'
  · rw [if_pos hmem, dictGet_map_replace, if_neg hkk]
  · rw [if_neg hmem, dictGet_append, dictGet_cons, if_neg hkk, dictGet_nil]

lemma dictGet_foldl_not_mem (rows : List DriverRow) (d : List (String × ℚ))
    (k : String) (dflt : ℚ) (h : ∀ q ∈ rows, q.abbreviation ≠ k) :
    dictGet (rows.foldl sprintStep d) k dflt = dictGet d k dflt := by
  induction rows generalizing d with
  | nil => rfl
  | cons r rest ih =>
    rw [List.foldl_cons, ih _ (fun q hq => h q (List.mem_cons_of_mem _ hq))]
    exact dictGet_dictSet_ne d _ _ (h r (List.mem_cons_self _ _))

lemma dictGet_foldl_mem (rows : List DriverRow) (d : List (String × ℚ)) (dflt : ℚ)
    {q : DriverRow} (hq : q ∈ rows)
    (hnd : (rows.map (fun r => r.abbreviation)).Nodup) :
    dictGet (rows.foldl sprintStep d) q.abbreviation dflt = q.points := by
  induction rows generalizing d with
  | nil => simp at hq
  | cons r rest ih =>
    simp only [List.map_cons, List.nodup_cons, List.mem_map] at hnd
    rw [List.foldl_cons]
    rcases List.mem_cons.mp hq with rfl | hq'
    · rw [dictGet_foldl_not_mem _ _ _ _ (fun p hp hpk => hnd.1 ⟨p, hp, hpk⟩)]
      exact dictGet_dictSet_self d _ _ _
    · exact ih _ hq' hnd.2

lemma sprintDict_eq_foldl {e : EventRec} {srows : List DriverRow}
    (hfmt : e.eventFormat = "sprint_qualifying") (hs : e.sprintResults = some srows) :
    sprintDict e = srows.foldl sprintStep [] := by
  unfold sprintDict
  rw [if_pos hfmt, hs]
  rfl

lemma sprintDict_degraded {e : EventRec}
    (h : e.sprintResults = none ∨ e.sprintResults = some []) :
    sprintDict e = [] := by
  unfold sprintDict
  by_cases hf : e.eventFormat = "sprint_qualifying"
  · rw [if_pos hf]
    rcases h with h | h <;> simp [h]
  · rw [if_neg hf]

/-- Witness for C10: on the duplicated-driver season the aggregation fails
with the reshape error. -/
theorem pivot_unique_keys_witness :
    create_season_heatmap 2024 [dupEvent] = Except.error reshapeErrMsg :=
  (pivot_unique_keys 2024 [dupEvent]).1 (by decide)

/-- Witness for the amended C6: the empty season fails with the no-data
error. -/
theorem no_data_error_iff_witness :
    create_season_heatmap 2024 ([] : List EventRec) = Except.error (noDataMsg 2024) :=
  (no_data_error_iff 2024 []).1.mpr (by decide)

/-- Claim C4: for a sprint-format event whose main classification is
non-empty, the event is always included and every main-classification row
contributes combined points `main + sprintDict.get(code, 0)`; an
unavailable (`none`) or empty sprint classification leaves every lookup at
0, so combined points equal main points alone; with a sprint classification
present (unique driver codes), a driver in both sessions gets main plus
that driver's sprint points, and a main-only driver gets main points
alone. -/
theorem sprint_points_additivity (e : EventRec) (rows : List DriverRow)
    (hfmt : e.eventFormat = "sprint_qualifying")
    (hmain : e.raceResults = some rows) (hne : rows ≠ []) :
    eventStandings e ≠ [] ∧
    eventStandings e = rows.map (fun r =>
      { eventName := e.eventName, roundNumber := e.roundNumber,
        driver := r.abbreviation,
        points := r.points + dictGet (sprintDict e) r.abbreviation 0,
        position := r.position }) ∧
    ((e.sprintResults = none ∨ e.sprintResults = some []) →
      (eventStandings e).map (fun s => s.points) = rows.map (fun r => r.points)) ∧
    (∀ srows, e.sprintResults = some srows →
      (∀ a, a ∉ srows.map (fun q => q.abbreviation) →
        dictGet (sprintDict e) a 0 = 0) ∧
      ((srows.map (fun q => q.abbreviation)).Nodup →
        ∀ q ∈ srows, dictGet (sprintDict e) q.abbreviation 0 = q.points)) := by
  have hmap := eventStandings_eq_map hmain hne
  refine ⟨?_, hmap, ?_, ?_⟩
  · rw [hmap]
    simpa using hne
  · intro hdeg
    rw [hmap, List.map_map]
    refine List.map_congr_left (fun r _ => ?_)
    simp [sprintDict_degraded hdeg, dictGet_nil]
  · intro srows hs
    rw [sprintDict_eq_foldl hfmt hs]
    constructor
    · intro a ha
      rw [dictGet_foldl_not_mem _ _ _ _
        (fun q hq hqa => ha (by rw [← hqa]; exact List.mem_map_of_mem _ hq))]
      exact dictGet_nil a 0
    · intro hnd q hq
      exact dictGet_foldl_mem srows [] 0 hq hnd

/-- Witness for C4: on the concrete sprint event, driver `AAA` appears in
both sessions and the sprint lookup yields its 8 sprint points; with the
sprint classification removed, every lookup is 0. -/
theorem sprint_points_additivity_witness :
    eventStandings exEvent2 ≠ [] ∧
    dictGet (sprintDict exEvent2) "AAA" 0 = 8 ∧
    dictGet (sprintDict ⟨"Beta Grand Prix", 2, "sprint_qualifying",
      some [⟨"AAA", 18, 2⟩], none⟩) "AAA" 0 = 0 := by
  have h := sprint_points_additivity exEvent2 [⟨"AAA", 18, 2⟩] rfl rfl (by decide)
  have h' := sprint_points_additivity ⟨"Beta Grand Prix", 2, "sprint_qualifying",
      some [⟨"AAA", 18, 2⟩], none⟩ [⟨"AAA", 18, 2⟩] rfl rfl (by decide)
  refine ⟨h.1, ?_, by decide⟩
  have := (h.2.2.2 [⟨"AAA", 8, 1⟩] rfl).2 (by decide) ⟨"AAA", 8, 1⟩ (by decide)
  simpa using this

/-- Witness for C2 on the concrete two-event season. -/
theorem totals_are_row_sums_witness :
    exTable.totals = exTable.points.map List.sum :=
  @totals_are_row_sums 2024 [exEvent1, exEvent2] exTable (by decide)

/-- Claim C9: the aggregation is deterministic — two runs on the same input
event-record sequence produce identical results. -/
theorem aggregation_deterministic (year : ℤ) (es : List EventRec)
    (r₁ r₂ : Except String SeasonTable)
    (h₁ : r₁ = create_season_heatmap year es) (h₂ : r₂ = create_season_heatmap year es) :
    r₁ = r₂ :=
  h₁.trans h₂.symm

/-- Witness for C9 at the concrete two-event season. -/
theorem aggregation_deterministic_witness :
    create_season_heatmap 2024 [exEvent1, exEvent2] =
      create_season_heatmap 2024 [exEvent1, exEvent2] :=
  aggregation_deterministic 2024 [exEvent1, exEvent2] _ _ rfl rfl

lemma mem_eventStandings_iff {e : EventRec} {s : Standing} :
    s ∈ eventStandings e ↔ ∃ rows, e.raceResults = some rows ∧ rows ≠ [] ∧
      ∃ r ∈ rows, s =
        { eventName := e.eventName, roundNumber := e.roundNumber,
          driver := r.abbreviation,
          points := r.points + dictGet (sprintDict e) r.abbreviation 0,
          position := r.position } := by
  unfold eventStandings
  cases hr : e.raceResults with
  | none => simp
  | some rows =>
    cases hb : rows.isEmpty with
    | true =>
      have : rows = [] := by
        cases rows with
        | nil => rfl
        | cons a l => exact absurd hb (by simp)
      subst this
      simp
    | false =>
      have hne : rows ≠ [] := by
        intro hnil
        rw [hnil] at hb
        exact absurd hb (by simp)
      simp only [hb]
      constructor
      · intro hs
        obtain ⟨r, hr', rfl⟩ := List.mem_map.mp (by simpa using hs)
        exact ⟨rows, rfl, hne, r, hr', rfl⟩
      · rintro ⟨rows', hrows', -, r, hr', rfl⟩
        obtain rfl : rows' = rows := (Option.some_inj.mp hrows').symm
        simp only [Bool.false_eq_true, if_false]
        exact List.mem_map_of_mem _ hr'

lemma driver_mem_standings_iff {es : List EventRec} {d : String} :
    (∃ s ∈ standings es, s.driver = d) ↔
      ∃ e ∈ es, ∃ rows, e.raceResults = some rows ∧ rows ≠ [] ∧
        ∃ r ∈ rows, r.abbreviation = d := by
  constructor
  · rintro ⟨s, hs, rfl⟩
    obtain ⟨e, he, hse⟩ := mem_standings.mp hs
    obtain ⟨rows, hrows, hne, r, hr, rfl⟩ := mem_eventStandings_iff.mp hse
    exact ⟨e, he, rows, hrows, hne, r, hr, rfl⟩
  · rintro ⟨e, he, rows, hrows, hne, r, hr, rfl⟩
    refine ⟨_, mem_standings.mpr ⟨e, he, mem_eventStandings_iff.mpr
      ⟨rows, hrows, hne, r, hr, rfl⟩⟩, rfl⟩

lemma cells_of_not_observed {st : List Standing} {d : String} {r : ℕ}
    (h : ¬ ∃ s ∈ st, s.driver = d ∧ s.roundNumber = r) :
    pointsAt st d r = 0 ∧ positionAt st d r = PosEntry.notAvailable := by
  have hf : st.find? (fun s => s.driver == d && s.roundNumber == r) = none := by
    rw [List.find?_eq_none]
    intro s hs hps
    simp only [Bool.and_eq_true, beq_iff_eq] at hps
    exact h ⟨s, hs, hps⟩
  unfold pointsAt positionAt
  rw [hf]
  exact ⟨rfl, rfl⟩

/-- Claim C5: the rows of a finalized table are exactly the drivers that
appear in some included event's main classification; every row spans all
columns in both grids; and at any (driver, round) cell with no observation
the points grid holds 0 while the position grid holds the distinguished
"not available" marker (which no classified position equals). -/
theorem driver_rows_and_fill {year : ℤ} {es : List EventRec} {t : SeasonTable}
    (h : create_season_heatmap year es = Except.ok t) :
    (∀ d, d ∈ t.rows ↔ ∃ e ∈ es, ∃ rows, e.raceResults = some rows ∧ rows ≠ [] ∧
      ∃ r ∈ rows, r.abbreviation = d) ∧
    (∀ row ∈ t.points, row.length = t.columns.length) ∧
    (∀ row ∈ t.positions, row.length = t.columns.length) ∧
    t.points = t.rows.map (fun d => t.columns.map (fun r => pointsAt (standings es) d r)) ∧
    t.positions = t.rows.map (fun d => t.columns.map (fun r => positionAt (standings es) d r)) ∧
    (∀ d ∈ t.rows, ∀ r ∈ t.columns,
      (¬ ∃ s ∈ standings es, s.driver = d ∧ s.roundNumber = r) →
        pointsAt (standings es) d r = 0 ∧
        positionAt (standings es) d r = PosEntry.notAvailable) ∧
    (∀ p : ℕ, PosEntry.notAvailable ≠ PosEntry.pos p) := by
  obtain ⟨-, -, rfl⟩ := create_ok_cases h
  refine ⟨fun d => ?_, fun row hrow => ?_, fun row hrow => ?_, rfl, rfl,
    fun d _ r _ hno => cells_of_not_observed hno, fun p => by simp⟩
  · show d ∈ sortedRows (standings es) ↔ _
    rw [mem_sortedRows]
    exact driver_mem_standings_iff
  · obtain ⟨d, -, rfl⟩ := List.mem_map.mp hrow
    simp [gridOf]
  · obtain ⟨d, -, rfl⟩ := List.mem_map.mp hrow
    simp [posGridOf]

/-- Witness for C5 at the concrete two-event season: driver `BBB` is a row,
and at round 2 (where `BBB` has no observation) the cells are 0 and the
"not available" marker. -/
theorem driver_rows_and_fill_witness :
    ("BBB" ∈ exTable.rows) ∧
    pointsAt (standings [exEvent1, exEvent2]) "BBB" 2 = 0 ∧
    positionAt (standings [exEvent1, exEvent2]) "BBB" 2 = PosEntry.notAvailable := by
  have h := @driver_rows_and_fill 2024 [exEvent1, exEvent2] exTable (by decide)
  refine ⟨(h.1 "BBB").mpr ⟨exEvent1, by decide, [exRowA, exRowB], rfl, by decide,
    exRowB, by decide, rfl⟩, ?_⟩
  exact h.2.2.2.2.2.1 "BBB" (by decide) 2 (by decide) (by decide)

lemma mem_dictSet {d : List (String × ℚ)} {k : String} {v : ℚ} {p : String × ℚ}
    (hp : p ∈ dictSet d k v) : p ∈ d ∨ p = (k, v) := by
  unfold dictSet at hp
  by_cases hmem : ∃ q ∈ d, q.1 = k
  · rw [if_pos hmem] at hp
    obtain ⟨q, hq, hqe⟩ := List.mem_map.mp hp
    by_cases hqk : q.1 = k
    · right
      rw [if_pos hqk] at hqe
      exact hqe.symm
    · left
      rw [if_neg hqk] at hqe
      exact hqe ▸ hq
  · rw [if_neg hmem] at hp
    rcases List.mem_append.mp hp with h | h
    · exact Or.inl h
    · right
      simpa using h

lemma foldl_dict_nonneg (rows : List DriverRow) (d : List (String × ℚ))
    (hd : ∀ p ∈ d, 0 ≤ p.2) (hr : ∀ r ∈ rows, 0 ≤ r.points) :
    ∀ p ∈ rows.foldl sprintStep d, 0 ≤ p.2 := by
  induction rows generalizing d with
  | nil => exact hd
  | cons r rest ih =>
    rw [List.foldl_cons]
    refine ih _ (fun p hp => ?_) (fun q hq => hr q (List.mem_cons_of_mem _ hq))
    rcases mem_dictSet hp with h | h
    · exact hd p h
    · rw [h]
      exact hr r (List.mem_cons_self _ _)

lemma sprintDict_nonneg {e : EventRec}
    (hs : ∀ r ∈ e.sprintResults.getD [], 0 ≤ r.points) :
    ∀ p ∈ sprintDict e, 0 ≤ p.2 := by
  unfold sprintDict
  by_cases hf : e.eventFormat = "sprint_qualifying"
  · rw [if_pos hf]
    cases hsr : e.sprintResults with
    | none => simp
    | some srows =>
      refine foldl_dict_nonneg srows [] (by simp) (fun r hr => ?_)
      refine hs r ?_
      rw [hsr]
      simpa using hr
  · rw [if_neg hf]
    simp

lemma dictGet_nonneg {d : List (String × ℚ)} {k : String} {dflt : ℚ}
    (hd : ∀ p ∈ d, 0 ≤ p.2) (hdflt : 0 ≤ dflt) : 0 ≤ dictGet d k dflt := by
  unfold dictGet
  cases hf : d.find? (fun p => p.1 == k) with
  | none => exact hdflt
  | some p => exact hd p (List.mem_of_find?_eq_some hf)

lemma standings_points_nonneg {es : List EventRec}
    (hnn : ∀ e ∈ es, (∀ r ∈ e.raceResults.getD [], 0 ≤ r.points) ∧
      (∀ r ∈ e.sprintResults.getD [], 0 ≤ r.points)) :
    ∀ s ∈ standings es, 0 ≤ s.points := by
  intro s hs
  obtain ⟨e, he, hse⟩ := mem_standings.mp hs
  obtain ⟨rows, hrows, -, r, hr, rfl⟩ := mem_eventStandings_iff.mp hse
  have h1 : 0 ≤ r.points := by
    refine (hnn e he).1 r ?_
    rw [hrows]
    simpa using hr
  have h2 : 0 ≤ dictGet (sprintDict e) r.abbreviation 0 :=
    dictGet_nonneg (sprintDict_nonneg (hnn e he).2) le_rfl
  simpa using add_nonneg h1 h2

lemma pointsAt_nonneg {st : List Standing} (h : ∀ s ∈ st, 0 ≤ s.points)
    (d : String) (r : ℕ) : 0 ≤ pointsAt st d r := by
  unfold pointsAt
  cases hf : st.find? (fun s => s.driver == d && s.roundNumber == r) with
  | none => exact le_rfl
  | some s => exact h s (List.mem_of_find?_eq_some hf)

lemma obsMax_nonneg {l : List ℚ} (h : ∀ x ∈ l, 0 ≤ x) : 0 ≤ obsMax l := by
  unfold obsMax
  cases hm : l.max? with
  | none => exact le_rfl
  | some v => exact h v (List.max?_mem (fun a b => max_choice a b) hm)

lemma scaleBound_spec {l : List ℚ} (h : ∀ x ∈ l, 0 ≤ x) :
    (obsMax l = 0 → scaleBound l = 1) ∧ (obsMax l ≠ 0 → scaleBound l = obsMax l) := by
  constructor
  · intro h0
    unfold scaleBound
    rw [h0]
    simp
  · intro h0
    unfold scaleBound
    rw [if_pos (lt_of_le_of_ne (obsMax_nonneg h) (Ne.symm h0))]

/-- Claim C8: with non-negative input points, the scale upper bound passed
to the colour map is 1 when the observed maximum of the points grid
(respectively of the totals vector) is 0, and the observed maximum
otherwise. -/
theorem scale_bounds {year : ℤ} {es : List EventRec} {t : SeasonTable}
    (h : create_season_heatmap year es = Except.ok t)
    (hnn : ∀ e ∈ es, (∀ r ∈ e.raceResults.getD [], 0 ≤ r.points) ∧
      (∀ r ∈ e.sprintResults.getD [], 0 ≤ r.points)) :
    (obsMax t.points.flatten = 0 → t.maxPoints = 1) ∧
    (obsMax t.points.flatten ≠ 0 → t.maxPoints = obsMax t.points.flatten) ∧
    (obsMax t.totals = 0 → t.maxTotalPoints = 1) ∧
    (obsMax t.totals ≠ 0 → t.maxTotalPoints = obsMax t.totals) := by
  obtain ⟨-, -, rfl⟩ := create_ok_cases h
  have hstn := standings_points_nonneg hnn
  have hgrid : ∀ x ∈ (gridOf (standings es) (sortedRows (standings es))
      (pivotCols (standings es))).flatten, 0 ≤ x := by
    intro x hx
    obtain ⟨row, hrow, hxrow⟩ := List.mem_flatten.mp hx
    obtain ⟨d, -, rfl⟩ := List.mem_map.mp hrow
    obtain ⟨rn, -, rfl⟩ := List.mem_map.mp hxrow
    exact pointsAt_nonneg hstn d rn
  have htot : ∀ x ∈ (sortedRows (standings es)).map
      (fun d => totalOf (standings es) (pivotCols (standings es)) d), 0 ≤ x := by
    intro x hx
    obtain ⟨d, -, rfl⟩ := List.mem_map.mp hx
    unfold totalOf
    refine List.sum_nonneg (fun y hy => ?_)
    obtain ⟨rn, -, rfl⟩ := List.mem_map.mp hy
    exact pointsAt_nonneg hstn d rn
  have hg := scaleBound_spec hgrid
  have ht := scaleBound_spec htot
  exact ⟨hg.1, hg.2, ht.1, ht.2⟩

/-- Witness for C8 at the concrete two-event season: the observed grid
maximum is non-zero and the bound equals it. -/
theorem scale_bounds_witness :
    obsMax exTable.points.flatten ≠ 0 ∧
    exTable.maxPoints = obsMax exTable.points.flatten := by
  have h := @scale_bounds 2024 [exEvent1, exEvent2] exTable (by decide) (by decide)
  exact ⟨by decide, h.2.1 (by decide)⟩

/-! ## The row order is an ascending sort of the pivoted index -/

/-- Claim C3 (amended): the finalized row order is a valid ascending sort
by total points — the totals vector is non-decreasing, the rows are
pairwise ordered by their totals, and they are a permutation of the
pivoted driver index.  No tie order among equal-total drivers is
asserted: `sort_values`' default quicksort is not stable, and the pivot
has already replaced first-observation order by its sorted index (see the
counterexample). -/
theorem rows_sorted_by_totals {year : ℤ} {es : List EventRec}
    {t : SeasonTable} (h : create_season_heatmap year es = Except.ok t) :
    t.totals.Pairwise (· ≤ ·) ∧
    t.rows.Pairwise (fun a b =>
      totalOf (standings es) (pivotCols (standings es)) a ≤
        totalOf (standings es) (pivotCols (standings es)) b) ∧
    t.rows.Perm (pivotIndex (standings es)) := by
  obtain ⟨-, -, rfl⟩ := create_ok_cases h
  haveI : IsTotal String (fun a b =>
      totalOf (standings es) (pivotCols (standings es)) a ≤
        totalOf (standings es) (pivotCols (standings es)) b) :=
    ⟨fun _ _ => le_total _ _⟩
  haveI : IsTrans String (fun a b =>
      totalOf (standings es) (pivotCols (standings es)) a ≤
        totalOf (standings es) (pivotCols (standings es)) b) :=
    ⟨fun _ _ _ h₁ h₂ => le_trans h₁ h₂⟩
  have hrows : (sortedRows (standings es)).Pairwise (fun a b =>
      totalOf (standings es) (pivotCols (standings es)) a ≤
        totalOf (standings es) (pivotCols (standings es)) b) := by
    unfold sortedRows
    have hs := List.sorted_insertionSort (fun a b =>
        totalOf (standings es) (pivotCols (standings es)) a ≤
          totalOf (standings es) (pivotCols (standings es)) b)
      (pivotIndex (standings es))
    exact hs
  refine ⟨?_, hrows, List.perm_insertionSort _ _⟩
  show (List.map (fun d => totalOf (standings es) (pivotCols (standings es)) d)
    (sortedRows (standings es))).Pairwise (· ≤ ·)
  rw [List.pairwise_map]
  exact hrows

/-- Counterexample to C3 as stated: on the tie season the two drivers have
equal totals and were first observed in the order `BBB`, `AAA`, yet the
finalized row order is `AAA`, `BBB` — first-observation order is not
preserved (the pivot sorts driver codes before the total sort runs). -/
theorem rows_sorted_ties_counterexample :
    create_season_heatmap 2024 [tieEvent] = Except.ok tieTable ∧
    tieTable.totals = [10, 10] ∧
    firstObservedOrder [tieEvent] = ["BBB", "AAA"] ∧
    tieTable.rows = ["AAA", "BBB"] ∧
    tieTable.rows ≠ firstObservedOrder [tieEvent] :=
  ⟨by decide, by decide, by decide, by decide, by decide⟩

/-- Witness for the amended C3 at the tie season: the totals come out
non-decreasing and the rows are a permutation of the pivoted index. -/
theorem rows_sorted_by_totals_witness :
    tieTable.totals.Pairwise (· ≤ ·) ∧
    tieTable.rows.Perm (pivotIndex (standings [tieEvent])) := by
  have h := @rows_sorted_by_totals 2024 [tieEvent] tieTable (by decide)
  exact ⟨h.1, h.2.2⟩

/-! ## Column order versus label order -/

lemma uniqAux_skip {α : Type} [DecidableEq α] (l rest : List α) :
    ∀ seen, (∀ x ∈ l, x ∈ seen) → uniqAux seen (l ++ rest) = uniqAux seen rest := by
  induction l with
  | nil =>
    intro seen _
    rfl
  | cons x l' ih =>
    intro seen h
    rw [List.cons_append]
    simp only [uniqAux]
    rw [if_pos (h x (List.mem_cons_self _ _))]
    exact ih seen (fun y hy => h y (List.mem_cons_of_mem _ hy))

lemma uniqAux_const_block {α : Type} [DecidableEq α] (l : List α) (v : α)
    (rest : List α) (seen : List α) (hne : l ≠ []) (hall : ∀ x ∈ l, x = v)
    (hv : v ∉ seen) :
    uniqAux seen (l ++ rest) = v :: uniqAux (v :: seen) rest := by
  cases l with
  | nil => exact absurd rfl hne
  | cons x l' =>
    obtain rfl : v = x := (hall x (List.mem_cons_self _ _)).symm
    rw [List.cons_append]
    simp only [uniqAux]
    rw [if_neg hv]
    congr 1
    exact uniqAux_skip l' rest (v :: seen)
      (fun y hy => by rw [hall y (List.mem_cons_of_mem _ hy)]; exact List.mem_cons_self _ _)

lemma uniq_rounds_eq {es : List EventRec} :
    ∀ seen, (((includedEvents es).map (fun e => e.roundNumber)).Nodup) →
      (∀ e ∈ includedEvents es, e.roundNumber ∉ seen) →
      uniqAux seen ((standings es).map (fun s => s.roundNumber)) =
        (includedEvents es).map (fun e => e.roundNumber) := by
  induction es with
  | nil =>
    intro seen _ _
    rfl
  | cons e rest ih =>
    intro seen hnd hseen
    rw [show standings (e :: rest) = eventStandings e ++ standings rest from rfl,
      List.map_append]
    cases hm : mainNonempty e with
    | false =>
      have hnil : eventStandings e = [] := eventStandings_eq_nil_iff.mpr hm
      have hinc : includedEvents (e :: rest) = includedEvents rest := by
        unfold includedEvents
        rw [List.filter_cons]
        simp [hm]
      rw [hnil] at *
      rw [hinc] at hnd hseen ⊢
      simpa using ih seen hnd hseen
    | true =>
      have hinc : includedEvents (e :: rest) = e :: includedEvents rest := by
        unfold includedEvents
        rw [List.filter_cons]
        simp [hm]
      rw [hinc] at hnd hseen ⊢
      rw [List.map_cons]
      have hblock : ∀ x ∈ (eventStandings e).map (fun s => s.roundNumber),
          x = e.roundNumber := by
        intro x hx
        obtain ⟨s, hs, rfl⟩ := List.mem_map.mp hx
        exact round_of_mem_eventStandings hs
      have hbne : (eventStandings e).map (fun s => s.roundNumber) ≠ [] := by
        simp [eventStandings_ne_nil_of_mainNonempty hm]
      rw [uniqAux_const_block _ e.roundNumber _ seen hbne hblock
        (hseen e (List.mem_cons_self _ _))]
      congr 1
      simp only [List.map_cons, List.nodup_cons] at hnd
      refine ih (e.roundNumber :: seen) hnd.2 (fun e' he' hmem => ?_)
      rcases List.mem_cons.mp hmem with heq | hmem'
      · exact hnd.1 (by rw [← heq]; exact List.mem_map_of_mem _ he')
      · exact hseen e' (List.mem_cons_of_mem _ he') hmem'

lemma pivotCols_of_sorted {es : List EventRec}
    (hs : ((includedEvents es).map (fun e => e.roundNumber)).Sorted (· < ·)) :
    pivotCols (standings es) = (includedEvents es).map (fun e => e.roundNumber) := by
  unfold pivotCols uniq
  rw [uniq_rounds_eq [] hs.nodup (fun _ _ => List.not_mem_nil _)]
  exact List.Sorted.insertionSort_eq (hs.imp (fun h => le_of_lt h))

/-- Claim C7 (amended): the column labels are the included events' names
with every occurrence of "Grand Prix" removed and surrounding whitespace
stripped, listed in schedule iteration order; provided the schedule's
included events are in strictly ascending round order, labels and columns
are aligned one-to-one, the columns being those events' rounds in the same
order. (Without that proviso the labels keep iteration order while the
columns are sorted — see the counterexample.) -/
theorem column_labels_aligned {year : ℤ} {es : List EventRec} {t : SeasonTable}
    (h : create_season_heatmap year es = Except.ok t)
    (hs : ((includedEvents es).map (fun e => e.roundNumber)).Sorted (· < ·)) :
    t.colLabels = (includedEvents es).map (fun e => shortName e.eventName) ∧
    t.columns = (includedEvents es).map (fun e => e.roundNumber) ∧
    t.colLabels.length = t.columns.length := by
  obtain ⟨-, -, rfl⟩ := create_ok_cases h
  refine ⟨rfl, pivotCols_of_sorted hs, ?_⟩
  show (shortEventNames es).length = (pivotCols (standings es)).length
  rw [pivotCols_of_sorted hs]
  unfold shortEventNames
  simp

/-- Counterexample to C7 as stated: with the schedule listed round 2 before
round 1, the finalized columns are `[1, 2]` (ascending rounds) but the
label list stays in iteration order `["Beta", "Alpha"]`, so the first label
is not the shortened name of the round-1 event — labels are keyed to
iteration order, not round order. -/
theorem column_labels_aligned_counterexample :
    create_season_heatmap 2024 [lateEvent, earlyEvent] = Except.ok misTable ∧
    misTable.columns = [1, 2] ∧
    misTable.colLabels = ["Beta", "Alpha"] ∧
    earlyEvent.roundNumber = 1 ∧
    shortName earlyEvent.eventName = "Alpha" ∧
    misTable.colLabels.head? ≠ some (shortName earlyEvent.eventName) :=
  ⟨by decide, by decide, by decide, by decide, by decide, by decide⟩

/-- Witness for the amended C7 at the concrete (round-ordered) season. -/
theorem column_labels_aligned_witness :
    exTable.colLabels =
      (includedEvents [exEvent1, exEvent2]).map (fun e => shortName e.eventName) ∧
    exTable.columns =
      (includedEvents [exEvent1, exEvent2]).map (fun e => e.roundNumber) ∧
    exTable.colLabels.length = exTable.columns.length :=
  @column_labels_aligned 2024 [exEvent1, exEvent2] exTable (by decide) (by decide)

end SeasonHeatmap
